import Mathlib

/-!
Verification of the diff-aware line mapper and the idempotent annotation
reconciler of `sonar-gitlab-commenter`, embedded shallowly from the Go
sources (`main.go`, `internal/gitlab`, `internal/sonar`).

Strings are modelled as Lean `String`/`List Char`; Go `map` values are
modelled as association lists with insert-replaces-existing-key semantics
(Go map iteration order is only ever used where the result is
order-independent).  Go `int` is modelled as `Int`.
-/

/-- ASCII approximation of Go's `unicode.IsSpace` as used by
`strings.TrimSpace` (space, tab, newline, vertical tab, form feed,
carriage return); the repository only feeds it ASCII paths and API text. -/
def goIsSpace (c : Char) : Bool :=
  c = ' ' || c = '\t' || c = '\n' || c = '\x0B' || c = '\x0C' || c = '\r'

/-- Drop leading characters satisfying `p`. -/
def trimLeftChars (p : Char → Bool) (l : List Char) : List Char :=
  l.dropWhile p

/-- Drop trailing characters satisfying `p`. -/
def trimRightChars (p : Char → Bool) (l : List Char) : List Char :=
  (l.reverse.dropWhile p).reverse

/-- Go `strings.TrimSpace`. -/
def goTrimSpace (s : String) : String :=
  ⟨trimRightChars goIsSpace (trimLeftChars goIsSpace s.data)⟩

/-- Substring occurrence on character lists: `sub` occurs somewhere in `l`.
Mirrors Go `strings.Contains` (the empty string occurs in everything). -/
def listContainsSub (sub : List Char) : List Char → Bool
  | [] => sub.isEmpty
  | c :: rest => sub.isPrefixOf (c :: rest) || listContainsSub sub rest

/-- Go `strings.Contains s sub`. -/
def strContains (s sub : String) : Bool :=
  listContainsSub sub.data s.data

/-- Go `strings.ReplaceAll s "\r\n" "\n"` on the character list. -/
def replaceCRLF : List Char → List Char
  | '\r' :: '\n' :: rest => '\n' :: replaceCRLF rest
  | c :: rest => c :: replaceCRLF rest
  | [] => []

/-- Go `strings.Split s "\n"` on the character list (`Split` of the empty
string yields one empty field). -/
def splitOnNewline : List Char → List (List Char)
  | [] => [[]]
  | c :: rest =>
    if c = '\n' then [] :: splitOnNewline rest
    else
      match splitOnNewline rest with
      | [] => [[c]]
      | h :: t => (c :: h) :: t

/-- Association-list model of a Go map write `m[k] = v`: replaces the
binding in place if the key is present, otherwise appends it. -/
def mapInsert {α β : Type} [DecidableEq α] : List (α × β) → α → β → List (α × β)
  | [], k, v => [(k, v)]
  | (k', v') :: t, k, v =>
    if k' = k then (k, v) :: t else (k', v') :: mapInsert t k v

/-- Association-list model of a Go map read `m[k]` (comma-ok form). -/
def mapLookup {α β : Type} [DecidableEq α] : List (α × β) → α → Option β
  | [], _ => none
  | (k', v) :: t, k => if k' = k then some v else mapLookup t k

/-- Go map read with the zero value as default (`m[k]` in value position). -/
def mapLookupD {α β : Type} [DecidableEq α] (m : List (α × β)) (k : α) (d : β) : β :=
  (mapLookup m k).getD d

/-- `const commentMarker` from `main.go`. -/
def commentMarker : String := "<!-- sonar-gitlab-commenter -->"

/-- `const summaryHeading` from `main.go`. -/
def summaryHeading : String := "**SonarQube summary**"

/-- `var summarySeverityOrder` from `main.go`. -/
def summarySeverityOrder : List String :=
  ["BLOCKER", "CRITICAL", "MAJOR", "MINOR", "INFO"]

/-- The Go enum `lineType` (`lineTypeAdded = 1`, `lineTypeContext = 2`). -/
inductive lineType where
  | added
  | context
deriving DecidableEq, Repr

/-- `type lineInfo struct` from `main.go`. -/
structure lineInfo where
  lineType : lineType
  oldLine : Int
  newLine : Int
deriving DecidableEq, Repr

/-- `type pathInfo struct` from `main.go`. -/
structure pathInfo where
  oldPath : String
  newPath : String
deriving DecidableEq, Repr

/-- `gitlab.MergeRequestChange` (old path, new path, raw unified diff). -/
structure MergeRequestChange where
  oldPath : String
  newPath : String
  diff : String
deriving Repr

/-- `type diffLineIndex struct` from `main.go`. -/
structure diffLineIndex where
  lines : List (String × List (Int × lineInfo))
  pathMap : List (String × pathInfo)
deriving Repr

/-- Greedy run of ASCII digits (`\d+` of RE2): returns its value and the
rest, or `none` when no digit starts the input. -/
def takeDigits (l : List Char) : Option (Nat × List Char) :=
  let ds := l.takeWhile (fun c => c.isDigit)
  if ds.isEmpty then none
  else some (ds.foldl (fun n c => n * 10 + (c.toNat - '0'.toNat)) 0, l.drop ds.length)

/-- One `(\d+)(?:,\d+)?` group of the hunk-header regex: the first number,
with an optional comma-count consumed and discarded.  When a comma follows
the digits but no digit follows the comma the whole header match fails,
exactly as the anchored regex does. -/
def parseHunkNumber (l : List Char) : Option (Nat × List Char) :=
  match takeDigits l with
  | none => none
  | some (n, rest) =>
    match rest with
    | ',' :: r2 =>
      match takeDigits r2 with
      | none => none
      | some (_, r3) => some (n, r3)
    | _ => some (n, rest)

/-- The match of `diffHunkHeaderRegex`
(`^@@ -(\d+)(?:,\d+)? \+(\d+)(?:,\d+)? @@`) against a line, returning the
two captured start values. -/
def diffHunkHeaderMatch (l : List Char) : Option (Nat × Nat) :=
  match l with
  | '@' :: '@' :: ' ' :: '-' :: r1 =>
    match parseHunkNumber r1 with
    | none => none
    | some (oldValue, r2) =>
      match r2 with
      | ' ' :: '+' :: r3 =>
        match parseHunkNumber r3 with
        | none => none
        | some (newValue, r4) =>
          match r4 with
          | ' ' :: '@' :: '@' :: _ => some (oldValue, newValue)
          | _ => none
      | _ => none
  | _ => none

/-- `math.MaxInt64`, the largest value Go's `strconv.Atoi` can return on
a 64-bit platform; a captured digit run whose value exceeds it makes
`Atoi` fail with a range error. -/
def maxGoInt : Nat := 9223372036854775807

/-- `parseDiffHunkHeader` from `main.go`: regex match plus the Go
checks, in source order per captured number.  `strconv.Atoi` of a
captured digit run fails exactly when the value exceeds the 64-bit `int`
maximum (range error), which makes the header fail; within range the
`oldValue < 0` / `newValue <= 0` guards apply (a digit run is never
negative, so the first guard never fires). -/
def parseDiffHunkHeader (l : List Char) : Option (Int × Int) :=
  match diffHunkHeaderMatch l with
  | none => none
  | some (oldValue, newValue) =>
    if oldValue > maxGoInt then none
    else if (oldValue : Int) < 0 then none
    else if newValue > maxGoInt then none
    else if (newValue : Int) ≤ 0 then none
    else some ((oldValue : Int), (newValue : Int))

/-- The loop state of `extractDiffLines`: the accumulated result map, the
two cursors and the in-hunk flag. -/
structure DiffState where
  result : List (Int × lineInfo)
  currentOldLine : Int
  currentNewLine : Int
  inHunk : Bool
deriving Repr

/-- One iteration of the `extractDiffLines` loop body over a single
diff line. -/
def extractDiffLinesStep (s : DiffState) (line : List Char) : DiffState :=
  if ['@', '@'].isPrefixOf line then
    match parseDiffHunkHeader line with
    | none => { s with inHunk := false }
    | some (oldStart, newStart) =>
      { s with inHunk := true, currentOldLine := oldStart, currentNewLine := newStart }
  else if !s.inHunk then s
  else if ['+'].isPrefixOf line then
    if ['+', '+', '+'].isPrefixOf line then s
    else
      { s with
        result := mapInsert s.result s.currentNewLine
          { lineType := .added, oldLine := 0, newLine := s.currentNewLine },
        currentNewLine := s.currentNewLine + 1 }
  else if ['-'].isPrefixOf line then
    if ['-', '-', '-'].isPrefixOf line then s
    else { s with currentOldLine := s.currentOldLine + 1 }
  else if [' '].isPrefixOf line then
    { s with
      result := mapInsert s.result s.currentNewLine
        { lineType := .context, oldLine := s.currentOldLine, newLine := s.currentNewLine },
      currentOldLine := s.currentOldLine + 1,
      currentNewLine := s.currentNewLine + 1 }
  else if ['\\'].isPrefixOf line then s
  else s

/-- `extractDiffLines` from `main.go`: normalize CRLF, split into lines,
fold the per-line classifier from the zeroed not-in-hunk state. -/
def extractDiffLines (diff : String) : List (Int × lineInfo) :=
  ((splitOnNewline (replaceCRLF diff.data)).foldl extractDiffLinesStep
    { result := [], currentOldLine := 0, currentNewLine := 0, inHunk := false }).result

/-- `normalizeRepoPath` from `main.go`: `TrimSpace`, strip one leading
`./`, then trim `/` from both ends. -/
def normalizeRepoPath (path : String) : String :=
  let trimmed := (goTrimSpace path).data
  let trimmed := if ['.', '/'].isPrefixOf trimmed then trimmed.drop 2 else trimmed
  ⟨trimRightChars (fun c => c = '/') (trimLeftChars (fun c => c = '/') trimmed)⟩

/-- The `for newLine, info := range lines` merge of one file's extracted
entries into the per-path line map (entry order of `entries` is
irrelevant because its keys are distinct). -/
def mergeLines (m : List (Int × lineInfo)) (entries : List (Int × lineInfo)) :
    List (Int × lineInfo) :=
  entries.foldl (fun acc p => mapInsert acc p.1 p.2) m

/-- The per-change body of the `buildDiffLineIndex` loop. -/
def buildDiffLineIndexStep (index : diffLineIndex) (change : MergeRequestChange) :
    diffLineIndex :=
  let path := normalizeRepoPath change.newPath
  if path = "" then index
  else
    let lines := extractDiffLines change.diff
    if lines.length = 0 then index
    else
      let existing := (mapLookup index.lines path).getD []
      let merged := mergeLines existing lines
      { lines := mapInsert index.lines path merged,
        pathMap := mapInsert index.pathMap path
          { oldPath := change.oldPath, newPath := change.newPath } }

/-- `buildDiffLineIndex` from `main.go`. -/
def buildDiffLineIndex (changes : List MergeRequestChange) : diffLineIndex :=
  changes.foldl buildDiffLineIndexStep { lines := [], pathMap := [] }

/-- `sonar.Issue` (the `Type` field is spelled `issueType`). -/
structure Issue where
  key : String
  rule : String
  severity : String
  issueType : String
  message : String
  filePath : String
  line : Int
deriving DecidableEq, Repr

/-- The retention test applied by the `filterIssuesByMRDiff` loop body to
one issue (the three `continue` guards of `main.go`). -/
def issueVisibleInDiff (index : diffLineIndex) (issue : Issue) : Bool :=
  let path := normalizeRepoPath issue.filePath
  if path = "" then false
  else if issue.line ≤ 0 then false
  else
    match mapLookup index.lines path with
    | none => false
    | some lines => (mapLookup lines issue.line).isSome

/-- `filterIssuesByMRDiff` from `main.go` (the append-unless-`continue`
loop is a filter preserving input order). -/
def filterIssuesByMRDiff (issues : List Issue) (index : diffLineIndex) : List Issue :=
  issues.filter (issueVisibleInDiff index)

/-- `splitIssuesByLineBinding` from `main.go`. -/
def splitIssuesByLineBinding : List Issue → List Issue × List Issue
  | [] => ([], [])
  | issue :: rest =>
    let r := splitIssuesByLineBinding rest
    if goTrimSpace issue.filePath = "" || issue.line ≤ 0 then
      (r.1, issue :: r.2)
    else
      (issue :: r.1, r.2)

/-- `commentHasMarker` from `main.go`. -/
def commentHasMarker (body : String) : Bool :=
  strContains body commentMarker

/-- `isSummaryNote` from `main.go`. -/
def isSummaryNote (body : String) : Bool :=
  commentHasMarker body && strContains body summaryHeading

/-- `gitlab.MergeRequestNote`. -/
structure MergeRequestNote where
  id : Int
  body : String
deriving DecidableEq, Repr

/-- The accumulator loop inside `findLatestSummaryNote`: keep the summary
note with the numerically greatest identifier seen so far. -/
def findLatestSummaryNoteAux (acc : Option MergeRequestNote) :
    List MergeRequestNote → Option MergeRequestNote
  | [] => acc
  | note :: rest =>
    if !isSummaryNote note.body then findLatestSummaryNoteAux acc rest
    else
      match acc with
      | none => findLatestSummaryNoteAux (some note) rest
      | some latestOne =>
        if note.id > latestOne.id then findLatestSummaryNoteAux (some note) rest
        else findLatestSummaryNoteAux acc rest

/-- `findLatestSummaryNote` from `main.go` (`(note, found)` as `Option`). -/
def findLatestSummaryNote (notes : List MergeRequestNote) : Option MergeRequestNote :=
  findLatestSummaryNoteAux none notes

/-- One write call the summary upsert can issue against the host. -/
inductive NoteAction where
  | create (body : String)
  | update (id : Int) (body : String)
deriving DecidableEq, Repr

/-- `upsertSummaryNote` from `main.go`, with the two GitLab API mutations
modelled as an emitted action list (the listed `notes` are the function's
input; each branch issues exactly one call and then returns).  The `Bool`
is the `updated` return value. -/
def upsertSummaryNote (notes : List MergeRequestNote) (body : String) :
    List NoteAction × Bool :=
  match findLatestSummaryNote notes with
  | none => ([NoteAction.create body], false)
  | some summaryNote => ([NoteAction.update summaryNote.id body], true)

/-- `gitlab.DiscussionNote`. -/
structure DiscussionNote where
  body : String
deriving DecidableEq, Repr

/-- `gitlab.Discussion`. -/
structure Discussion where
  id : String
  resolved : Bool
  resolvable : Bool
  notes : List DiscussionNote
deriving DecidableEq, Repr

/-- `discussionContainsMarker` from `main.go` (the early-`return true`
loop is `List.any`). -/
def discussionContainsMarker (discussion : Discussion) : Bool :=
  discussion.notes.any (fun note => commentHasMarker note.body)

/-- `resolvePreviousSonarDiscussions` from `main.go`, with each
`ResolveMergeRequestDiscussion` API call modelled as the emitted
discussion identifier; the `Nat` is the returned `resolvedCount`.  The
listed discussions are the function's input. -/
def resolvePreviousSonarDiscussions : List Discussion → List String × Nat
  | [] => ([], 0)
  | discussion :: rest =>
    if discussion.resolved || !discussion.resolvable then
      resolvePreviousSonarDiscussions rest
    else if !discussionContainsMarker discussion then
      resolvePreviousSonarDiscussions rest
    else
      let r := resolvePreviousSonarDiscussions rest
      (discussion.id :: r.1, r.2 + 1)

/-- ASCII approximation of Go `strings.ToLower` (only ASCII status words
reach it). -/
def goToLower (s : String) : String :=
  ⟨s.data.map Char.toLower⟩

/-- ASCII approximation of Go `strings.ToUpper` (only ASCII severity words
reach it). -/
def goToUpper (s : String) : String :=
  ⟨s.data.map Char.toUpper⟩

/-- `formatQualityGateStatus` from `main.go`. -/
def formatQualityGateStatus (status : String) : String :=
  let s := goToLower (goTrimSpace status)
  if s = "passed" then "✅ **passed**"
  else if s = "failed" then "❌ **failed**"
  else "⚠️ **warning**"

/-- `sonar.QualityReport`.  The two Go fields are `float64` values that
the summary renders with `%.2f`; floating point is abstracted by carrying
that rendered text directly, which the marker/containment claims never
inspect. -/
structure QualityReport where
  qualityGateStatus : String
  overallCoverageText : String
  newCodeCoverageText : String
deriving Repr

/-- Modelled from the spec: `sonar.AllowedSeverities` (its source file is
not in the repository snapshot; only its tests and callers are).  The spec
fixes "a fixed total order over five severity levels" and the summary
renders them as BLOCKER, CRITICAL, MAJOR, MINOR, INFO. -/
def AllowedSeverities : List String :=
  ["BLOCKER", "CRITICAL", "MAJOR", "MINOR", "INFO"]

/-- Modelled from the spec: `sonar.NormalizeSeverity` (its source file is
not in the repository snapshot).  The spec says severity input is
"case-insensitive on input, uppercased canonically". -/
def NormalizeSeverity (severity : String) : String :=
  goToUpper (goTrimSpace severity)

/-- `countIssuesBySeverity` from `main.go`: a count per allowed severity
(all initialized to zero) plus the count of unrecognized severities. -/
def countIssuesBySeverity (issues : List Issue) : List (String × Nat) × Nat :=
  let counts := AllowedSeverities.foldl (fun m severity => mapInsert m severity 0) []
  issues.foldl
    (fun acc issue =>
      let normalizedSeverity := NormalizeSeverity issue.severity
      match mapLookup acc.1 normalizedSeverity with
      | none => (acc.1, acc.2 + 1)
      | some c => (mapInsert acc.1 normalizedSeverity (c + 1), acc.2))
    (counts, 0)

/-- `formatInlineIssueComment` from `main.go`. -/
def formatInlineIssueComment (issue : Issue) : String :=
  commentMarker ++ "\n**SonarQube issue**\n- Severity: `" ++ goTrimSpace issue.severity ++
    "`\n- Type: `" ++ goTrimSpace issue.issueType ++
    "`\n- Message: " ++ goTrimSpace issue.message ++
    "\n- Rule key: `" ++ goTrimSpace issue.rule ++ "`"

/-- The `Sprintf("%d. [%s][%s] %s (rule \x60%s\x60)", i+1, ...)` body of one
numbered project-level entry, without its trailing newline. -/
def formatProjectIssueEntry (idx : Nat) (issue : Issue) : String :=
  toString idx ++ ". [" ++ goTrimSpace issue.severity ++ "][" ++
    goTrimSpace issue.issueType ++ "] " ++ goTrimSpace issue.message ++
    " (rule `" ++ goTrimSpace issue.rule ++ "`)"

/-- The `for i, issue := range projectLevelIssues` rendering loop of the
summary body (`idx` carries `i+1` of the first remaining entry). -/
def renderProjectIssueEntries (idx : Nat) : List Issue → String
  | [] => ""
  | issue :: rest =>
    formatProjectIssueEntry idx issue ++ "\n" ++ renderProjectIssueEntries (idx + 1) rest

/-- The `for _, severity := range summarySeverityOrder` rendering loop of
the summary body. -/
def renderSeverityCounts (counts : List (String × Nat)) : List String → String
  | [] => ""
  | severity :: rest =>
    "- " ++ severity ++ ": " ++ toString (mapLookupD counts severity 0) ++ "\n" ++
      renderSeverityCounts counts rest

/-- Go `strings.TrimRight(s, "\n")`. -/
def trimRightNewlines (s : String) : String :=
  ⟨trimRightChars (fun c => c = '\n') s.data⟩

/-- The four metric lines the summary writes after its heading. -/
def summaryMetricsSection (qualityReport : QualityReport) (issues : List Issue) : String :=
  "- Quality gate: " ++ formatQualityGateStatus qualityReport.qualityGateStatus ++ "\n" ++
    "- Overall coverage: " ++ qualityReport.overallCoverageText ++ "%\n" ++
    "- New code coverage: " ++ qualityReport.newCodeCoverageText ++ "%\n" ++
    "- Total issues: " ++ toString issues.length ++ "\n"

/-- The optional UNKNOWN severity line of the summary. -/
def summaryUnknownSection (unknownSeverityCount : Nat) : String :=
  if unknownSeverityCount > 0 then
    "- UNKNOWN: " ++ toString unknownSeverityCount ++ "\n"
  else ""

/-- The optional `len(projectLevelIssues) > 0` block of the summary: the
section heading plus the numbered project-level entries. -/
def summaryProjectSection (projectLevelIssues : List Issue) : String :=
  if projectLevelIssues.length > 0 then
    "\n**SonarQube issues without line binding**\n" ++
      renderProjectIssueEntries 1 projectLevelIssues
  else ""

/-- `formatMergeRequestSummaryComment` from `main.go`: the successive
`builder.WriteString` calls are one string concatenation (grouped to the
right), trimmed of trailing newlines at the end. -/
def formatMergeRequestSummaryComment (qualityReport : QualityReport)
    (issues : List Issue) (projectLevelIssues : List Issue) : String :=
  let r := countIssuesBySeverity issues
  trimRightNewlines
    (commentMarker ++ ("\n" ++ (summaryHeading ++ ("\n" ++
      (summaryMetricsSection qualityReport issues ++
        ("\n**Issues by severity**\n" ++
          (renderSeverityCounts r.1 summarySeverityOrder ++
            (summaryUnknownSection r.2 ++
              summaryProjectSection projectLevelIssues))))))))

/-- `isInvalidInlinePositionError` from `internal/gitlab`: the host's
line-identity-rejection vocabulary test on a non-nil error's text. -/
def isInvalidInlinePositionError (errText : String) : Bool :=
  strContains errText "line_code" && strContains errText "valid line code"

/-- The inline-posting loop of `runWith` (`main.go` lines 147-244), with
the `CreateInlineDiscussion` call modelled by `submit`, which returns the
raw API error text on failure (`none` on success).  The GitLab client
wraps that failure in `ErrInvalidInlinePosition` exactly when
`isInvalidInlinePositionError` holds of the text, and `runWith` demotes
exactly on that wrapper, so demotion tests the raw text directly here.  A
non-matching failure aborts with the issue key and the error text (Go
wraps them into one error). -/
def processInlineIssues (index : diffLineIndex) (submit : Issue → Option String)
    (postedInlineCount : Nat) (projectLevelIssues : List Issue) :
    List Issue → Except (String × String) (Nat × List Issue)
  | [] => Except.ok (postedInlineCount, projectLevelIssues)
  | issue :: rest =>
    let normalizedPath := normalizeRepoPath issue.filePath
    match mapLookup index.pathMap normalizedPath with
    | none =>
      processInlineIssues index submit postedInlineCount (projectLevelIssues ++ [issue]) rest
    | some _ =>
      match mapLookup index.lines normalizedPath with
      | none =>
        processInlineIssues index submit postedInlineCount (projectLevelIssues ++ [issue]) rest
      | some lines =>
        match mapLookup lines issue.line with
        | none =>
          processInlineIssues index submit postedInlineCount (projectLevelIssues ++ [issue]) rest
        | some _ =>
          match submit issue with
          | some errText =>
            if isInvalidInlinePositionError errText then
              processInlineIssues index submit postedInlineCount
                (projectLevelIssues ++ [issue]) rest
            else
              Except.error (issue.key, errText)
          | none =>
            processInlineIssues index submit (postedInlineCount + 1) projectLevelIssues rest

theorem mapLookup_mapInsert {α β : Type} [DecidableEq α] (m : List (α × β)) (k k' : α)
    (v : β) :
    mapLookup (mapInsert m k v) k' = if k = k' then some v else mapLookup m k' := by
  induction m with
  | nil => simp [mapInsert, mapLookup]
  | cons p t ih =>
    obtain ⟨pk, pv⟩ := p
    by_cases h : pk = k
    · subst h
      simp only [mapInsert, if_pos rfl, mapLookup]
      by_cases h2 : pk = k' <;> simp [h2]
    · by_cases h2 : pk = k'
      · subst h2
        have hkk : ¬k = pk := fun he => h he.symm
        simp [mapInsert, mapLookup, h, hkk]
      · simp [mapInsert, mapLookup, h, h2, ih]

theorem mapLookup_eq_some_mem {α β : Type} [DecidableEq α] {m : List (α × β)} {k : α}
    {v : β} (h : mapLookup m k = some v) : (k, v) ∈ m := by
  induction m with
  | nil => simp [mapLookup] at h
  | cons p t ih =>
    obtain ⟨pk, pv⟩ := p
    by_cases hk : pk = k
    · subst hk
      simp [mapLookup] at h
      simp [h]
    · simp [mapLookup, hk] at h
      exact List.mem_cons_of_mem _ (ih h)

theorem mem_mapInsert {α β : Type} [DecidableEq α] {m : List (α × β)} {k : α} {v : β}
    {q : α × β} (h : q ∈ mapInsert m k v) : q ∈ m ∨ q = (k, v) := by
  induction m with
  | nil =>
    simp [mapInsert] at h
    exact Or.inr h
  | cons p t ih =>
    obtain ⟨pk, pv⟩ := p
    by_cases hk : pk = k
    · subst hk
      simp [mapInsert] at h
      rcases h with h | h
      · exact Or.inr h
      · exact Or.inl (List.mem_cons_of_mem _ h)
    · simp [mapInsert, hk] at h
      rcases h with h | h
      · exact Or.inl (by simp [h])
      · rcases ih h with h' | h'
        · exact Or.inl (List.mem_cons_of_mem _ h')
        · exact Or.inr h'

theorem listContainsSub_eq_true_iff (sub l : List Char) :
    listContainsSub sub l = true ↔ sub <:+: l := by
  induction l with
  | nil => simp [listContainsSub, List.isEmpty_iff, List.infix_nil]
  | cons c rest ih =>
    simp [listContainsSub, Bool.or_eq_true, ih, List.infix_cons_iff,
      List.isPrefixOf_iff_prefix]

/-- C2: on the two-hunk scenario diff the extraction yields exactly the
entries 10, 11, 12, 40 (Added) and 41 (Context with old line 21), in new
cursor order, and nothing else. -/
theorem extractDiffLines_two_hunk_scenario :
    extractDiffLines "@@ -5,2 +10,3 @@\n+A\n+B\n+C\n@@ -20,2 +40,2 @@\n-old\n+D\n context" =
      [(10, { lineType := .added, oldLine := 0, newLine := 10 }),
       (11, { lineType := .added, oldLine := 0, newLine := 11 }),
       (12, { lineType := .added, oldLine := 0, newLine := 12 }),
       (40, { lineType := .added, oldLine := 0, newLine := 40 }),
       (41, { lineType := .context, oldLine := 21, newLine := 41 })] := by
  decide

/-- C5: the resolve calls issued by the stale-thread reconciliation are
exactly the identifiers of the input discussions that are open,
resolvable, and carry the marker in some note body, in input order; in
particular no resolve call is ever issued for a resolved, unresolvable,
or marker-free discussion. -/
theorem resolvePreviousSonarDiscussions_resolves_exactly_open_marked
    (discussions : List Discussion) :
    (resolvePreviousSonarDiscussions discussions).1 =
      (discussions.filter
        (fun d => !d.resolved && d.resolvable && discussionContainsMarker d)).map
        (fun d => d.id) := by
  induction discussions with
  | nil => rfl
  | cons d rest ih =>
    cases hr : d.resolved <;> cases hv : d.resolvable <;>
      cases hm : discussionContainsMarker d <;>
        simp [resolvePreviousSonarDiscussions, hr, hv, hm, ih, List.filter_cons]

theorem isPrefixOf_eq_false_iff (s l : List Char) :
    s.isPrefixOf l = false ↔ ¬(s <+: l) := by
  rw [← List.isPrefixOf_iff_prefix]
  cases h : s.isPrefixOf l <;> simp

/-- C3: inside a valid hunk each line is classified by its first
character: a `+` line (not a `+++` marker) records an Added entry at key
`currentNewLine` with `oldLine = 0` and `newLine = currentNewLine` and
bumps only the new cursor; a `-` line (not `---`) records nothing and
bumps only the old cursor; a leading-space line records a Context entry
carrying both cursors and bumps both; any line whose prefix is none of
`+`, `-`, a space, or `@@` (including the `\` no-newline marker) records
nothing and moves neither cursor. -/
theorem extractDiffLinesStep_classification (s : DiffState) (line : List Char)
    (h : s.inHunk = true) :
    (∀ t, line = '+' :: t → ['+', '+', '+'].isPrefixOf line = false →
      extractDiffLinesStep s line =
        { s with
          result := mapInsert s.result s.currentNewLine
            { lineType := .added, oldLine := 0, newLine := s.currentNewLine },
          currentNewLine := s.currentNewLine + 1 }) ∧
    (∀ t, line = '-' :: t → ['-', '-', '-'].isPrefixOf line = false →
      extractDiffLinesStep s line = { s with currentOldLine := s.currentOldLine + 1 }) ∧
    (∀ t, line = ' ' :: t →
      extractDiffLinesStep s line =
        { s with
          result := mapInsert s.result s.currentNewLine
            { lineType := .context, oldLine := s.currentOldLine,
              newLine := s.currentNewLine },
          currentOldLine := s.currentOldLine + 1,
          currentNewLine := s.currentNewLine + 1 }) ∧
    (['@', '@'].isPrefixOf line = false → ['+'].isPrefixOf line = false →
      ['-'].isPrefixOf line = false → [' '].isPrefixOf line = false →
      extractDiffLinesStep s line = s) := by
  refine ⟨?_, ?_, ?_, ?_⟩
  · intro t hline h3
    subst hline
    have h3' := (isPrefixOf_eq_false_iff _ _).mp h3
    simp at h3'
    simp [extractDiffLinesStep, h, h3']
  · intro t hline h3
    subst hline
    have h3' := (isPrefixOf_eq_false_iff _ _).mp h3
    simp at h3'
    simp [extractDiffLinesStep, h, h3']
  · intro t hline
    subst hline
    simp [extractDiffLinesStep, h]
  · intro h0 h1 h2 h3
    have h0' := (isPrefixOf_eq_false_iff _ _).mp h0
    have h1' := (isPrefixOf_eq_false_iff _ _).mp h1
    have h2' := (isPrefixOf_eq_false_iff _ _).mp h2
    have h3' := (isPrefixOf_eq_false_iff _ _).mp h3
    simp [extractDiffLinesStep, h, h0', h1', h2', h3']

/-- Witness for C3 at concrete in-hunk states and lines. -/
theorem extractDiffLinesStep_classification_witness :
    extractDiffLinesStep ⟨[], 5, 7, true⟩ ['+', 'x'] =
      ⟨[(7, { lineType := .added, oldLine := 0, newLine := 7 })], 5, 8, true⟩ ∧
    extractDiffLinesStep ⟨[], 5, 7, true⟩ ['-', 'x'] = ⟨[], 6, 7, true⟩ ∧
    extractDiffLinesStep ⟨[], 5, 7, true⟩ [' ', 'x'] =
      ⟨[(7, { lineType := .context, oldLine := 5, newLine := 7 })], 6, 8, true⟩ ∧
    extractDiffLinesStep ⟨[], 5, 7, true⟩ ['\\', 'x'] = ⟨[], 5, 7, true⟩ := by
  refine ⟨?_, ?_, ?_, ?_⟩
  · rw [(extractDiffLinesStep_classification ⟨[], 5, 7, true⟩ ['+', 'x'] rfl).1
      ['x'] rfl (by decide)]
    rfl
  · rw [(extractDiffLinesStep_classification ⟨[], 5, 7, true⟩ ['-', 'x'] rfl).2.1
      ['x'] rfl (by decide)]
    rfl
  · rw [(extractDiffLinesStep_classification ⟨[], 5, 7, true⟩ [' ', 'x'] rfl).2.2.1
      ['x'] rfl]
    rfl
  · rw [(extractDiffLinesStep_classification ⟨[], 5, 7, true⟩ ['\\', 'x'] rfl).2.2.2
      (by decide) (by decide) (by decide) (by decide)]

theorem extractDiffLinesStep_not_in_hunk (s : DiffState) (l : List Char)
    (hs : s.inHunk = false) (hp : parseDiffHunkHeader l = none) :
    extractDiffLinesStep s l = s := by
  cases s with
  | mk r o n ihk =>
    simp only at hs
    by_cases hpre : ['@', '@'].isPrefixOf l = true
    · simp [extractDiffLinesStep, hpre, hp, hs]
    · have h' : ¬(['@', '@'] <+: l) := by simpa using hpre
      simp [extractDiffLinesStep, h', hs]

theorem diffHunkHeaderMatch_shape {l : List Char} {x : Nat × Nat}
    (h : diffHunkHeaderMatch l = some x) :
    ∃ r, l = '@' :: '@' :: ' ' :: '-' :: r := by
  unfold diffHunkHeaderMatch at h
  split at h
  · exact ⟨_, rfl⟩
  · simp at h

theorem parseDiffHunkHeader_isPrefix {l : List Char} {x : Int × Int}
    (h : parseDiffHunkHeader l = some x) : ['@', '@'].isPrefixOf l = true := by
  unfold parseDiffHunkHeader at h
  split at h
  · simp at h
  · next oldValue newValue heq =>
    obtain ⟨r, rfl⟩ := diffHunkHeaderMatch_shape heq
    simp [List.isPrefixOf]

theorem parseDiffHunkHeader_pos {l : List Char} {o n : Int}
    (h : parseDiffHunkHeader l = some (o, n)) : 0 < n ∧ 0 ≤ o := by
  unfold parseDiffHunkHeader at h
  split at h
  · simp at h
  · next oldValue newValue heq =>
    by_cases h1 : (oldValue : Int) < 0
    · simp [h1] at h
    · by_cases h2 : (newValue : Int) ≤ 0
      · simp [h1, h2] at h
      · simp [h1, h2] at h
        obtain ⟨ho, hn⟩ := h
        omega

/-- C9: a `@@`-prefixed line whose header fails to parse — non-numeric
fields, a digit run beyond the 64-bit `int` range (`Atoi` range error),
or a new start of zero or less — raises no error (the step function is
total): it only clears the in-hunk flag; from a not-in-hunk state every
line that is not a successfully parsing header leaves the state (and
hence the index) unchanged; and a successfully parsing header re-enters
hunk mode with both cursors set from the header's start values. -/
theorem malformed_hunk_header_is_skipped :
    (∀ (s : DiffState) (line : List Char),
        ['@', '@'].isPrefixOf line = true → parseDiffHunkHeader line = none →
        extractDiffLinesStep s line = { s with inHunk := false }) ∧
    (∀ (s : DiffState) (rest : List (List Char)),
        s.inHunk = false → (∀ l ∈ rest, parseDiffHunkHeader l = none) →
        rest.foldl extractDiffLinesStep s = s) ∧
    (∀ (s : DiffState) (line : List Char) (oldStart newStart : Int),
        parseDiffHunkHeader line = some (oldStart, newStart) →
        extractDiffLinesStep s line =
          { s with inHunk := true, currentOldLine := oldStart,
                   currentNewLine := newStart }) := by
  refine ⟨?_, ?_, ?_⟩
  · intro s line h1 h2
    simp [extractDiffLinesStep, h1, h2]
  · intro s rest hs hall
    induction rest with
    | nil => rfl
    | cons l ls ih =>
      rw [List.foldl_cons, extractDiffLinesStep_not_in_hunk s l hs (hall l (by simp))]
      exact ih fun l' hl' => hall l' (by simp [hl'])
  · intro s line oldStart newStart hp
    have h1 := parseDiffHunkHeader_isPrefix hp
    simp [extractDiffLinesStep, h1, hp]

/-- Witness for C9: a syntactically malformed header, a header whose new
start exceeds the 64-bit `int` range (so `Atoi` fails), two classified
lines outside a hunk, and a well-formed header, all at concrete
states. -/
theorem malformed_hunk_header_is_skipped_witness :
    extractDiffLinesStep ⟨[], 3, 4, true⟩ ['@', '@', 'x'] = ⟨[], 3, 4, false⟩ ∧
    extractDiffLinesStep ⟨[], 3, 4, true⟩ "@@ -1,1 +99999999999999999999,1 @@".data =
      ⟨[], 3, 4, false⟩ ∧
    [['+', 'a'], ['-', 'b']].foldl extractDiffLinesStep ⟨[], 3, 4, false⟩ =
      ⟨[], 3, 4, false⟩ ∧
    extractDiffLinesStep ⟨[], 3, 4, false⟩ "@@ -7,1 +9,2 @@".data = ⟨[], 7, 9, true⟩ := by
  refine ⟨?_, ?_, ?_, ?_⟩
  · rw [malformed_hunk_header_is_skipped.1 ⟨[], 3, 4, true⟩ ['@', '@', 'x']
      (by decide) (by decide)]
  · rw [malformed_hunk_header_is_skipped.1 ⟨[], 3, 4, true⟩
      "@@ -1,1 +99999999999999999999,1 @@".data (by decide) (by decide)]
  · exact malformed_hunk_header_is_skipped.2.1 _ _ rfl (by decide)
  · rw [malformed_hunk_header_is_skipped.2.2 ⟨[], 3, 4, false⟩ _ 7 9 (by decide)]

theorem mem_mergeLines {m entries : List (Int × lineInfo)} {q : Int × lineInfo}
    (h : q ∈ mergeLines m entries) : q ∈ m ∨ q ∈ entries := by
  induction entries generalizing m with
  | nil => exact Or.inl h
  | cons p t ih =>
    have h' : q ∈ mergeLines (mapInsert m p.1 p.2) t := by
      simpa [mergeLines] using h
    rcases ih h' with h'' | h''
    · rcases mem_mapInsert h'' with h3 | h3
      · exact Or.inl h3
      · exact Or.inr (by simp [h3])
    · exact Or.inr (List.mem_cons_of_mem _ h'')

theorem extractDiffLinesStep_inv {s : DiffState} (l : List Char)
    (h1 : s.inHunk = true → 1 ≤ s.currentNewLine)
    (h2 : ∀ q ∈ s.result, 1 ≤ q.1) :
    ((extractDiffLinesStep s l).inHunk = true →
      1 ≤ (extractDiffLinesStep s l).currentNewLine) ∧
    (∀ q ∈ (extractDiffLinesStep s l).result, 1 ≤ q.1) := by
  unfold extractDiffLinesStep
  split
  · split
    · exact ⟨by simp, by simpa using h2⟩
    · next oldStart newStart hp =>
      refine ⟨?_, by simpa using h2⟩
      intro _
      simpa using (parseDiffHunkHeader_pos hp).1
  · split
    · exact ⟨h1, h2⟩
    · next hnih =>
      have hs : s.inHunk = true := by
        revert hnih
        cases s.inHunk <;> simp
      split
      · split
        · exact ⟨h1, h2⟩
        · refine ⟨?_, ?_⟩
          · intro _
            have := h1 hs
            simp only
            omega
          · intro q hq
            simp only at hq
            rcases mem_mapInsert hq with h' | h'
            · exact h2 q h'
            · simp [h']
              exact h1 hs
      · split
        · split
          · exact ⟨h1, h2⟩
          · exact ⟨fun _ => h1 hs, h2⟩
        · split
          · refine ⟨?_, ?_⟩
            · intro _
              have := h1 hs
              simp only
              omega
            · intro q hq
              simp only at hq
              rcases mem_mapInsert hq with h' | h'
              · exact h2 q h'
              · simp [h']
                exact h1 hs
          · split
            · exact ⟨h1, h2⟩
            · exact ⟨h1, h2⟩

theorem extractDiffLines_keys_pos (diff : String) :
    ∀ q ∈ extractDiffLines diff, 1 ≤ q.1 := by
  unfold extractDiffLines
  generalize splitOnNewline (replaceCRLF diff.data) = ls
  suffices h : ∀ (s : DiffState), (s.inHunk = true → 1 ≤ s.currentNewLine) →
      (∀ q ∈ s.result, 1 ≤ q.1) →
      ∀ q ∈ (ls.foldl extractDiffLinesStep s).result, 1 ≤ q.1 by
    exact h ⟨[], 0, 0, false⟩ (by simp) (by simp)
  induction ls with
  | nil => exact fun s h1 h2 => h2
  | cons l t ih =>
    intro s h1 h2
    rw [List.foldl_cons]
    obtain ⟨g1, g2⟩ := extractDiffLinesStep_inv l h1 h2
    exact ih _ g1 g2

theorem buildDiffLineIndexStep_inv (index : diffLineIndex) (change : MergeRequestChange)
    (ha : mapLookup index.lines "" = none)
    (hb : ∀ path m, mapLookup index.lines path = some m → ∀ q ∈ m, 1 ≤ q.1) :
    mapLookup (buildDiffLineIndexStep index change).lines "" = none ∧
    (∀ path m, mapLookup (buildDiffLineIndexStep index change).lines path = some m →
      ∀ q ∈ m, 1 ≤ q.1) := by
  by_cases hp : normalizeRepoPath change.newPath = ""
  · have hstep : buildDiffLineIndexStep index change = index := by
      simp [buildDiffLineIndexStep, hp]
    rw [hstep]
    exact ⟨ha, hb⟩
  · by_cases hl : (extractDiffLines change.diff).length = 0
    · have hstep : buildDiffLineIndexStep index change = index := by
        simp [buildDiffLineIndexStep, hp, hl]
      rw [hstep]
      exact ⟨ha, hb⟩
    · have hstepL : (buildDiffLineIndexStep index change).lines =
          mapInsert index.lines (normalizeRepoPath change.newPath)
            (mergeLines
              ((mapLookup index.lines (normalizeRepoPath change.newPath)).getD [])
              (extractDiffLines change.diff)) := by
        simp [buildDiffLineIndexStep, hp, hl]
      rw [hstepL]
      constructor
      · rw [mapLookup_mapInsert, if_neg hp]
        exact ha
      · intro path' m hm
        rw [mapLookup_mapInsert] at hm
        by_cases he : normalizeRepoPath change.newPath = path'
        · rw [if_pos he] at hm
          injection hm with hm'
          subst hm'
          intro q hq
          rcases mem_mergeLines hq with h' | h'
          · cases hex : mapLookup index.lines (normalizeRepoPath change.newPath) with
            | none => simp [hex] at h'
            | some m0 => exact hb _ m0 hex q (by simpa [hex] using h')
          · exact extractDiffLines_keys_pos _ q h'
        · rw [if_neg he] at hm
          exact hb path' m hm

theorem buildDiffLineIndex_inv (changes : List MergeRequestChange) :
    mapLookup (buildDiffLineIndex changes).lines "" = none ∧
    ∀ path m, mapLookup (buildDiffLineIndex changes).lines path = some m →
      ∀ q ∈ m, 1 ≤ q.1 := by
  unfold buildDiffLineIndex
  suffices h : ∀ (index : diffLineIndex),
      mapLookup index.lines "" = none →
      (∀ path m, mapLookup index.lines path = some m → ∀ q ∈ m, 1 ≤ q.1) →
      mapLookup (changes.foldl buildDiffLineIndexStep index).lines "" = none ∧
      ∀ path m, mapLookup (changes.foldl buildDiffLineIndexStep index).lines path = some m →
        ∀ q ∈ m, 1 ≤ q.1 by
    exact h ⟨[], []⟩ rfl (by simp [mapLookup])
  induction changes with
  | nil => exact fun i ha hb => ⟨ha, hb⟩
  | cons c t ih =>
    intro i ha hb
    rw [List.foldl_cons]
    obtain ⟨ga, gb⟩ := buildDiffLineIndexStep_inv i c ha hb
    exact ih _ ga gb

/-- C1: over an index built from the changeset, the finding filter keeps
a finding exactly when the index has an entry for the finding's
normalized file path at the finding's line number, and drops every other
finding (the blank-path and non-positive-line guards are subsumed: such
keys never occur in a built index). -/
theorem filterIssuesByMRDiff_retains_iff_index_entry
    (issues : List Issue) (changes : List MergeRequestChange) :
    filterIssuesByMRDiff issues (buildDiffLineIndex changes) =
      issues.filter fun issue =>
        (Option.bind
          (mapLookup (buildDiffLineIndex changes).lines (normalizeRepoPath issue.filePath))
          (fun lines => mapLookup lines issue.line)).isSome := by
  unfold filterIssuesByMRDiff
  apply List.filter_congr
  intro issue _
  obtain ⟨ha, hb⟩ := buildDiffLineIndex_inv changes
  unfold issueVisibleInDiff
  by_cases hp : normalizeRepoPath issue.filePath = ""
  · simp [hp, ha]
  · by_cases hl : issue.line ≤ 0
    · cases hm : mapLookup (buildDiffLineIndex changes).lines
          (normalizeRepoPath issue.filePath) with
      | none => simp [hp, hl, hm]
      | some m =>
        cases hv : mapLookup m issue.line with
        | none => simp [hp, hl, hm, hv]
        | some v =>
          exfalso
          have hq := hb _ m hm (issue.line, v) (mapLookup_eq_some_mem hv)
          simp at hq
          omega
    · cases hm : mapLookup (buildDiffLineIndex changes).lines
          (normalizeRepoPath issue.filePath) with
      | none => simp [hp, hl, hm]
      | some m => simp [hp, hl, hm]

theorem findLatestSummaryNoteAux_spec (notes : List MergeRequestNote) :
    ∀ acc : Option MergeRequestNote,
      (findLatestSummaryNoteAux acc notes = none →
        acc = none ∧ ∀ n ∈ notes, isSummaryNote n.body = false) ∧
      (∀ m, findLatestSummaryNoteAux acc notes = some m →
        ((m ∈ notes ∧ isSummaryNote m.body = true) ∨ acc = some m) ∧
        (∀ n ∈ notes, isSummaryNote n.body = true → n.id ≤ m.id) ∧
        (∀ a, acc = some a → a.id ≤ m.id)) := by
  induction notes with
  | nil =>
    intro acc
    constructor
    · intro h
      exact ⟨by simpa [findLatestSummaryNoteAux] using h, by simp⟩
    · intro m h
      have hacc : acc = some m := by simpa [findLatestSummaryNoteAux] using h
      refine ⟨Or.inr hacc, by simp, ?_⟩
      intro a ha
      rw [hacc] at ha
      injection ha with ha'
      rw [ha']
  | cons note rest ih =>
    intro acc
    by_cases hm : isSummaryNote note.body = true
    · cases acc with
      | none =>
        have hstep : findLatestSummaryNoteAux none (note :: rest) =
            findLatestSummaryNoteAux (some note) rest := by
          simp [findLatestSummaryNoteAux, hm]
        rw [hstep]
        constructor
        · intro h
          obtain ⟨h1, _⟩ := (ih (some note)).1 h
          exact absurd h1 (by simp)
        · intro m h
          obtain ⟨hmem, hbound, haccb⟩ := (ih (some note)).2 m h
          have hnote : note.id ≤ m.id := haccb note rfl
          refine ⟨?_, ?_, by simp⟩
          · rcases hmem with ⟨h1, h2⟩ | h1
            · exact Or.inl ⟨List.mem_cons_of_mem _ h1, h2⟩
            · injection h1 with h1'
              exact Or.inl ⟨by rw [← h1']; exact List.mem_cons_self _ _,
                by rw [← h1']; exact hm⟩
          · intro n hn hsum
            rcases List.mem_cons.mp hn with rfl | hn'
            · exact hnote
            · exact hbound n hn' hsum
      | some latest =>
        by_cases hgt : note.id > latest.id
        · have hstep : findLatestSummaryNoteAux (some latest) (note :: rest) =
              findLatestSummaryNoteAux (some note) rest := by
            simp [findLatestSummaryNoteAux, hm, hgt]
          rw [hstep]
          constructor
          · intro h
            obtain ⟨h1, _⟩ := (ih (some note)).1 h
            exact absurd h1 (by simp)
          · intro m h
            obtain ⟨hmem, hbound, haccb⟩ := (ih (some note)).2 m h
            have hnote : note.id ≤ m.id := haccb note rfl
            refine ⟨?_, ?_, ?_⟩
            · rcases hmem with ⟨h1, h2⟩ | h1
              · exact Or.inl ⟨List.mem_cons_of_mem _ h1, h2⟩
              · injection h1 with h1'
                exact Or.inl ⟨by rw [← h1']; exact List.mem_cons_self _ _,
                  by rw [← h1']; exact hm⟩
            · intro n hn hsum
              rcases List.mem_cons.mp hn with rfl | hn'
              · exact hnote
              · exact hbound n hn' hsum
            · intro a ha
              injection ha with ha'
              rw [← ha']
              exact le_trans (le_of_lt hgt) hnote
        · have hstep : findLatestSummaryNoteAux (some latest) (note :: rest) =
              findLatestSummaryNoteAux (some latest) rest := by
            simp [findLatestSummaryNoteAux, hm, hgt]
          rw [hstep]
          constructor
          · intro h
            obtain ⟨h1, _⟩ := (ih (some latest)).1 h
            exact absurd h1 (by simp)
          · intro m h
            obtain ⟨hmem, hbound, haccb⟩ := (ih (some latest)).2 m h
            have hlat : latest.id ≤ m.id := haccb latest rfl
            have hnote : note.id ≤ m.id := le_trans (not_lt.mp hgt) hlat
            refine ⟨?_, ?_, ?_⟩
            · rcases hmem with ⟨h1, h2⟩ | h1
              · exact Or.inl ⟨List.mem_cons_of_mem _ h1, h2⟩
              · exact Or.inr h1
            · intro n hn hsum
              rcases List.mem_cons.mp hn with rfl | hn'
              · exact hnote
              · exact hbound n hn' hsum
            · intro a ha
              exact haccb a ha
    · have hmf : isSummaryNote note.body = false := by simpa using hm
      have hstep : findLatestSummaryNoteAux acc (note :: rest) =
          findLatestSummaryNoteAux acc rest := by
        simp [findLatestSummaryNoteAux, hmf]
      rw [hstep]
      constructor
      · intro h
        obtain ⟨h1, h2⟩ := (ih acc).1 h
        refine ⟨h1, ?_⟩
        intro n hn
        rcases List.mem_cons.mp hn with rfl | hn'
        · exact hmf
        · exact h2 n hn'
      · intro m h
        obtain ⟨hmem, hbound, haccb⟩ := (ih acc).2 m h
        refine ⟨?_, ?_, haccb⟩
        · rcases hmem with ⟨h1, h2⟩ | h1
          · exact Or.inl ⟨List.mem_cons_of_mem _ h1, h2⟩
          · exact Or.inr h1
        · intro n hn hsum
          rcases List.mem_cons.mp hn with rfl | hn'
          · rw [hsum] at hmf
            exact absurd hmf (by simp)
          · exact hbound n hn' hsum

/-- C4: when some listed note satisfies the summary predicate, the upsert
issues exactly one call, an update, whose target is the identifier of a
summary note that is maximal among all summary notes (no create is ever
issued and no other note is touched); when no note satisfies the
predicate, exactly one create call is issued. -/
theorem upsertSummaryNote_single_call (notes : List MergeRequestNote) (body : String) :
    ((∃ n ∈ notes, isSummaryNote n.body = true) →
      ∃ i, upsertSummaryNote notes body = ([NoteAction.update i body], true) ∧
        (∃ n ∈ notes, isSummaryNote n.body = true ∧ n.id = i) ∧
        ∀ n ∈ notes, isSummaryNote n.body = true → n.id ≤ i) ∧
    ((∀ n ∈ notes, isSummaryNote n.body = false) →
      upsertSummaryNote notes body = ([NoteAction.create body], false)) := by
  constructor
  · rintro ⟨n, hn, hsum⟩
    cases hres : findLatestSummaryNoteAux none notes with
    | none =>
      obtain ⟨_, hall⟩ := (findLatestSummaryNoteAux_spec notes none).1 hres
      rw [hall n hn] at hsum
      exact absurd hsum (by simp)
    | some m =>
      obtain ⟨hmem, hbound, _⟩ := (findLatestSummaryNoteAux_spec notes none).2 m hres
      refine ⟨m.id, ?_, ?_, hbound⟩
      · simp [upsertSummaryNote, findLatestSummaryNote, hres]
      · rcases hmem with ⟨h1, h2⟩ | h1
        · exact ⟨m, h1, h2, rfl⟩
        · exact absurd h1 (by simp)
  · intro hall
    cases hres : findLatestSummaryNoteAux none notes with
    | none => simp [upsertSummaryNote, findLatestSummaryNote, hres]
    | some m =>
      obtain ⟨hmem, _, _⟩ := (findLatestSummaryNoteAux_spec notes none).2 m hres
      rcases hmem with ⟨h1, h2⟩ | h1
      · rw [hall m h1] at h2
        exact absurd h2 (by simp)
      · exact absurd h1 (by simp)

/-- Witness for C4: one update targeting the highest-id summary note when
a summary note exists; one create when none does. -/
theorem upsertSummaryNote_single_call_witness :
    upsertSummaryNote
        [{ id := 1, body := "plain" },
         { id := 11, body := "<!-- sonar-gitlab-commenter -->\n**SonarQube summary**\nold" }]
        "fresh" = ([NoteAction.update 11 "fresh"], true) ∧
    upsertSummaryNote [{ id := 1, body := "plain" }] "fresh" =
      ([NoteAction.create "fresh"], false) := by
  constructor
  · obtain ⟨i, hi, ⟨n, hn, hsumn, hid⟩, hbound⟩ :=
      (upsertSummaryNote_single_call
        [{ id := 1, body := "plain" },
         { id := 11, body := "<!-- sonar-gitlab-commenter -->\n**SonarQube summary**\nold" }]
        "fresh").1
        ⟨{ id := 11, body := "<!-- sonar-gitlab-commenter -->\n**SonarQube summary**\nold" },
          by simp, by decide⟩
    have h11 : (11 : Int) ≤ i :=
      hbound { id := 11, body := "<!-- sonar-gitlab-commenter -->\n**SonarQube summary**\nold" } (by simp) (by decide)
    have hle : i ≤ 11 := by
      rw [← hid]
      simp at hn
      rcases hn with rfl | rfl
      · exact absurd hsumn (by decide)
      · exact le_refl _
    have hcol : i = 11 := le_antisymm hle h11
    rw [hcol] at hi
    exact hi
  · exact (upsertSummaryNote_single_call [{ id := 1, body := "plain" }] "fresh").2
      (by decide)

/-- C6: when an inline submission fails and the error text matches the
host's line-identity-rejection vocabulary, the finding is appended to the
project-level bucket, the posted-inline count is unchanged, and the loop
continues with the remaining findings; when the error text does not match
the vocabulary, the loop aborts with an error carrying the issue key and
the failure text. -/
theorem processInlineIssues_demotes_on_position_rejection
    (index : diffLineIndex) (submit : Issue → Option String)
    (postedInlineCount : Nat) (projectLevelIssues : List Issue)
    (issue : Issue) (rest : List Issue) (errText : String)
    (lines : List (Int × lineInfo)) (pinfo : pathInfo)
    (hpath : mapLookup index.pathMap (normalizeRepoPath issue.filePath) = some pinfo)
    (hlines : mapLookup index.lines (normalizeRepoPath issue.filePath) = some lines)
    (hinfo : (mapLookup lines issue.line).isSome = true)
    (hsubmit : submit issue = some errText) :
    (isInvalidInlinePositionError errText = true →
      processInlineIssues index submit postedInlineCount projectLevelIssues
          (issue :: rest) =
        processInlineIssues index submit postedInlineCount
          (projectLevelIssues ++ [issue]) rest) ∧
    (isInvalidInlinePositionError errText = false →
      processInlineIssues index submit postedInlineCount projectLevelIssues
          (issue :: rest) =
        Except.error (issue.key, errText)) := by
  obtain ⟨info, hinfo'⟩ := Option.isSome_iff_exists.mp hinfo
  constructor <;> intro hcl <;>
    simp [processInlineIssues, hpath, hlines, hinfo', hsubmit, hcl]

/-- Witness for C6: a vocabulary-matching rejection demotes and the run
ends successfully with the finding in the bucket; a generic failure
aborts. -/
theorem processInlineIssues_demotes_on_position_rejection_witness :
    processInlineIssues
        { lines := [("a.go", [(5, { lineType := .added, oldLine := 0, newLine := 5 })])],
          pathMap := [("a.go", { oldPath := "a.go", newPath := "a.go" })] }
        (fun _ => some "line_code must be a valid line code") 0 []
        [{ key := "K", rule := "r", severity := "MAJOR", issueType := "BUG",
           message := "m", filePath := "a.go", line := 5 }] =
      Except.ok (0,
        [{ key := "K", rule := "r", severity := "MAJOR", issueType := "BUG",
           message := "m", filePath := "a.go", line := 5 }]) ∧
    processInlineIssues
        { lines := [("a.go", [(5, { lineType := .added, oldLine := 0, newLine := 5 })])],
          pathMap := [("a.go", { oldPath := "a.go", newPath := "a.go" })] }
        (fun _ => some "HTTP 500 internal error") 0 []
        [{ key := "K", rule := "r", severity := "MAJOR", issueType := "BUG",
           message := "m", filePath := "a.go", line := 5 }] =
      Except.error ("K", "HTTP 500 internal error") := by
  constructor
  · rw [(processInlineIssues_demotes_on_position_rejection
        { lines := [("a.go", [(5, { lineType := .added, oldLine := 0, newLine := 5 })])],
          pathMap := [("a.go", { oldPath := "a.go", newPath := "a.go" })] }
        (fun _ => some "line_code must be a valid line code") 0 []
        { key := "K", rule := "r", severity := "MAJOR", issueType := "BUG",
          message := "m", filePath := "a.go", line := 5 } [] "line_code must be a valid line code"
        [(5, { lineType := .added, oldLine := 0, newLine := 5 })]
        { oldPath := "a.go", newPath := "a.go" }
        (by decide) (by decide) (by decide) rfl).1 (by decide)]
    rfl
  · rw [(processInlineIssues_demotes_on_position_rejection
        { lines := [("a.go", [(5, { lineType := .added, oldLine := 0, newLine := 5 })])],
          pathMap := [("a.go", { oldPath := "a.go", newPath := "a.go" })] }
        (fun _ => some "HTTP 500 internal error") 0 []
        { key := "K", rule := "r", severity := "MAJOR", issueType := "BUG",
          message := "m", filePath := "a.go", line := 5 } [] "HTTP 500 internal error"
        [(5, { lineType := .added, oldLine := 0, newLine := 5 })]
        { oldPath := "a.go", newPath := "a.go" }
        (by decide) (by decide) (by decide) rfl).2 (by decide)]

/-- Counterexample for C7: two changed files normalize to the key
`a.go`; the later file's extraction has no entry at line 5, yet the built
index still has the earlier file's line-5 entry under that key — the
later file did not overwrite the entry entirely; the earlier per-line
entries were merged in. -/
theorem buildDiffLineIndex_duplicate_path_counterexample :
    mapLookup
        (buildDiffLineIndex
          [{ oldPath := "a.go", newPath := "a.go", diff := "@@ -1,1 +5,1 @@\n+x" },
           { oldPath := "b.old", newPath := "a.go", diff := "@@ -1,1 +7,1 @@\n+y" }]).lines
        "a.go" =
      some [(5, { lineType := .added, oldLine := 0, newLine := 5 }),
            (7, { lineType := .added, oldLine := 0, newLine := 7 })] ∧
    mapLookup (extractDiffLines "@@ -1,1 +7,1 @@\n+y") 5 = none := by
  decide

/-- C7 amended: when two ChangedFiles normalize to the same non-empty
path key (both with non-empty extractions), the later file's per-line
entries are merged into the earlier file's line map under that key — the
later file wins on shared line keys but the earlier file's other entries
survive — and only the path-identity entry is overwritten entirely by the
later file. -/
theorem buildDiffLineIndex_duplicate_path_merges
    (c1 c2 : MergeRequestChange)
    (hdup : normalizeRepoPath c2.newPath = normalizeRepoPath c1.newPath)
    (hne : normalizeRepoPath c1.newPath ≠ "")
    (h1 : extractDiffLines c1.diff ≠ [])
    (h2 : extractDiffLines c2.diff ≠ []) :
    mapLookup (buildDiffLineIndex [c1, c2]).lines (normalizeRepoPath c1.newPath) =
      some (mergeLines (mergeLines [] (extractDiffLines c1.diff))
        (extractDiffLines c2.diff)) ∧
    mapLookup (buildDiffLineIndex [c1, c2]).pathMap (normalizeRepoPath c1.newPath) =
      some { oldPath := c2.oldPath, newPath := c2.newPath } := by
  have hl1 : ¬(extractDiffLines c1.diff).length = 0 := by
    simpa [List.length_eq_zero] using h1
  have hl2 : ¬(extractDiffLines c2.diff).length = 0 := by
    simpa [List.length_eq_zero] using h2
  have hstep1 : buildDiffLineIndexStep { lines := [], pathMap := [] } c1 =
      { lines := [(normalizeRepoPath c1.newPath,
          mergeLines [] (extractDiffLines c1.diff))],
        pathMap := [(normalizeRepoPath c1.newPath,
          { oldPath := c1.oldPath, newPath := c1.newPath })] } := by
    simp [buildDiffLineIndexStep, hne, hl1, mapInsert, mapLookup, mergeLines]
  have hstep2 : buildDiffLineIndexStep
      { lines := [(normalizeRepoPath c1.newPath,
          mergeLines [] (extractDiffLines c1.diff))],
        pathMap := [(normalizeRepoPath c1.newPath,
          { oldPath := c1.oldPath, newPath := c1.newPath })] } c2 =
      { lines := [(normalizeRepoPath c1.newPath,
          mergeLines (mergeLines [] (extractDiffLines c1.diff))
            (extractDiffLines c2.diff))],
        pathMap := [(normalizeRepoPath c1.newPath,
          { oldPath := c2.oldPath, newPath := c2.newPath })] } := by
    simp [buildDiffLineIndexStep, hdup, hne, hl2, mapInsert, mapLookup]
  have hfold : buildDiffLineIndex [c1, c2] =
      { lines := [(normalizeRepoPath c1.newPath,
          mergeLines (mergeLines [] (extractDiffLines c1.diff))
            (extractDiffLines c2.diff))],
        pathMap := [(normalizeRepoPath c1.newPath,
          { oldPath := c2.oldPath, newPath := c2.newPath })] } := by
    unfold buildDiffLineIndex
    rw [List.foldl_cons, hstep1, List.foldl_cons, hstep2, List.foldl_nil]
  rw [hfold]
  constructor <;> simp [mapLookup]

/-- Witness for C7's amended statement at two concrete changed files that
collide on the key `a.go`. -/
theorem buildDiffLineIndex_duplicate_path_merges_witness :
    mapLookup
        (buildDiffLineIndex
          [{ oldPath := "a.go", newPath := "a.go", diff := "@@ -1,1 +5,1 @@\n+x" },
           { oldPath := "b.old", newPath := "a.go", diff := "@@ -1,1 +7,1 @@\n+y" }]).lines
        (normalizeRepoPath "a.go") =
      some (mergeLines (mergeLines [] (extractDiffLines "@@ -1,1 +5,1 @@\n+x"))
        (extractDiffLines "@@ -1,1 +7,1 @@\n+y")) ∧
    mapLookup
        (buildDiffLineIndex
          [{ oldPath := "a.go", newPath := "a.go", diff := "@@ -1,1 +5,1 @@\n+x" },
           { oldPath := "b.old", newPath := "a.go", diff := "@@ -1,1 +7,1 @@\n+y" }]).pathMap
        (normalizeRepoPath "a.go") =
      some { oldPath := "b.old", newPath := "a.go" } :=
  buildDiffLineIndex_duplicate_path_merges
    { oldPath := "a.go", newPath := "a.go", diff := "@@ -1,1 +5,1 @@\n+x" }
    { oldPath := "b.old", newPath := "a.go", diff := "@@ -1,1 +7,1 @@\n+y" }
    (by decide) (by decide) (by decide) (by decide)

theorem infix_append_self_left (sub b : List Char) : sub <:+: sub ++ b :=
  ⟨[], b, by simp⟩

theorem infix_append_left_extend {sub b : List Char} (a : List Char) (h : sub <:+: b) :
    sub <:+: a ++ b := by
  obtain ⟨x, y, rfl⟩ := h
  exact ⟨a ++ x, y, by simp⟩

theorem infix_append_right_extend {sub a : List Char} (b : List Char) (h : sub <:+: a) :
    sub <:+: a ++ b := by
  obtain ⟨x, y, rfl⟩ := h
  exact ⟨x, y ++ b, by simp⟩

theorem infix_trimRightChars {sub l : List Char} {p : Char → Bool} {c : Char}
    (h : sub <:+: l) (hlast : sub.getLast? = some c) (hp : p c = false) :
    sub <:+: trimRightChars p l := by
  obtain ⟨a, b, rfl⟩ := h
  unfold trimRightChars
  rw [List.reverse_append, List.reverse_append, List.dropWhile_append]
  by_cases hb : (List.dropWhile p b.reverse).isEmpty
  · rw [if_pos hb]
    have hrev : sub.reverse.head? = some c := by
      rw [← List.getLast?_eq_head?_reverse]
      exact hlast
    obtain ⟨t, ht⟩ : ∃ t, sub.reverse = c :: t := by
      cases hsr : sub.reverse with
      | nil => rw [hsr] at hrev; simp at hrev
      | cons d t =>
        rw [hsr] at hrev
        simp at hrev
        exact ⟨t, by rw [hrev]⟩
    have hsub : sub = t.reverse ++ [c] := by
      have := congrArg List.reverse ht
      simpa using this
    rw [ht, List.cons_append, List.dropWhile_cons, if_neg (by simp [hp])]
    refine ⟨a, [], ?_⟩
    simp [hsub]
  · rw [if_neg hb]
    refine ⟨a, (List.dropWhile p b.reverse).reverse, ?_⟩
    simp

theorem strContains_trimRightNewlines {s sub : String} {c : Char}
    (h : sub.data <:+: s.data) (hlast : sub.data.getLast? = some c) (hc : c ≠ '\n') :
    strContains (trimRightNewlines s) sub = true := by
  unfold strContains
  rw [listContainsSub_eq_true_iff]
  exact infix_trimRightChars h hlast (by simp [hc])

theorem formatProjectIssueEntry_getLast (idx : Nat) (issue : Issue) :
    (formatProjectIssueEntry idx issue).data.getLast? = some ')' := by
  have hlit : ("\x60)" : String).data.getLast? = some ')' := by decide
  simp only [formatProjectIssueEntry, String.data_append, List.getLast?_append, hlit]
  simp

theorem entry_infix_render (pl : List Issue) :
    ∀ (idx k : Nat) (hk : k < pl.length),
      (formatProjectIssueEntry (idx + k) (pl.get ⟨k, hk⟩)).data <:+:
        (renderProjectIssueEntries idx pl).data := by
  induction pl with
  | nil =>
    intro idx k hk
    simp at hk
  | cons issue t ih =>
    intro idx k hk
    cases k with
    | zero =>
      simp only [renderProjectIssueEntries, List.get]
      simp only [String.data_append, Nat.add_zero]
      exact infix_append_right_extend _ (infix_append_right_extend _ (List.infix_refl _))
    | succ k' =>
      have hk' : k' < t.length := Nat.lt_of_succ_lt_succ hk
      have h := ih (idx + 1) k' hk'
      have harith : idx + (k' + 1) = idx + 1 + k' := by omega
      simp only [renderProjectIssueEntries, List.get, harith, String.data_append]
      exact infix_append_left_extend _ h

/-- C8: a finding with a blank file path or non-positive line is routed
to the project-level list by the splitter, and every finding handed to
the summary renderer as project-level appears as its numbered entry
inside the rendered summary body; the splitter and renderer are total
functions, so no such finding can fail the run. -/
theorem project_level_findings_rendered_in_summary :
    (∀ (issues : List Issue) (issue : Issue), issue ∈ issues →
      goTrimSpace issue.filePath = "" ∨ issue.line ≤ 0 →
      issue ∈ (splitIssuesByLineBinding issues).2) ∧
    (∀ (qualityReport : QualityReport) (issues projectLevelIssues : List Issue)
        (k : Nat) (hk : k < projectLevelIssues.length),
      strContains
        (formatMergeRequestSummaryComment qualityReport issues projectLevelIssues)
        (formatProjectIssueEntry (k + 1) (projectLevelIssues.get ⟨k, hk⟩)) = true) := by
  constructor
  · intro issues issue
    induction issues with
    | nil =>
      intro hmem _
      simp at hmem
    | cons i t ih =>
      intro hmem hcond
      rcases List.mem_cons.mp hmem with rfl | hmem'
      · have hcondB :
            (decide (goTrimSpace issue.filePath = "") || decide (issue.line ≤ 0)) = true := by
          rcases hcond with h | h <;> simp [h]
        simp [splitIssuesByLineBinding, hcondB]
      · have hrec := ih hmem' hcond
        by_cases hcB :
            (decide (goTrimSpace i.filePath = "") || decide (i.line ≤ 0)) = true
        · simp [splitIssuesByLineBinding, hcB]
          exact Or.inr hrec
        · have hcB' : (decide (goTrimSpace i.filePath = "") || decide (i.line ≤ 0)) = false := by
            simpa using hcB
          simpa [splitIssuesByLineBinding, hcB'] using hrec
  · intro qualityReport issues projectLevelIssues k hk
    have hlen : projectLevelIssues.length > 0 := Nat.lt_of_le_of_lt (Nat.zero_le _) hk
    have hproj : summaryProjectSection projectLevelIssues =
        "\n**SonarQube issues without line binding**\n" ++
          renderProjectIssueEntries 1 projectLevelIssues := by
      simp [summaryProjectSection, hlen]
    have hentry := entry_infix_render projectLevelIssues 1 k hk
    rw [Nat.add_comm] at hentry
    simp only [formatMergeRequestSummaryComment]
    refine strContains_trimRightNewlines ?_ (formatProjectIssueEntry_getLast _ _)
      (by decide)
    rw [hproj]
    simp only [String.data_append]
    apply infix_append_left_extend
    apply infix_append_left_extend
    apply infix_append_left_extend
    apply infix_append_left_extend
    apply infix_append_left_extend
    apply infix_append_left_extend
    apply infix_append_left_extend
    apply infix_append_left_extend
    apply infix_append_left_extend
    exact hentry

/-- Witness for C8: a blank-path finding is routed project-level, and a
concrete project-level finding's numbered entry occurs in the rendered
body. -/
theorem project_level_findings_rendered_in_summary_witness :
    { key := "B", rule := "r", severity := "MAJOR", issueType := "BUG", message := "m",
      filePath := "  ", line := 4 : Issue } ∈
      (splitIssuesByLineBinding
        [{ key := "B", rule := "r", severity := "MAJOR", issueType := "BUG",
           message := "m", filePath := "  ", line := 4 }]).2 ∧
    strContains
      (formatMergeRequestSummaryComment
        { qualityGateStatus := "passed", overallCoverageText := "80.00",
          newCodeCoverageText := "70.00" } []
        [{ key := "P", rule := "go:S1", severity := "MAJOR", issueType := "CODE_SMELL",
           message := "project issue", filePath := "", line := 0 }])
      (formatProjectIssueEntry 1
        { key := "P", rule := "go:S1", severity := "MAJOR", issueType := "CODE_SMELL",
          message := "project issue", filePath := "", line := 0 }) = true := by
  constructor
  · exact project_level_findings_rendered_in_summary.1 _ _ (by simp)
      (Or.inl (by decide))
  · have h := project_level_findings_rendered_in_summary.2
      { qualityGateStatus := "passed", overallCoverageText := "80.00",
        newCodeCoverageText := "70.00" } []
      [{ key := "P", rule := "go:S1", severity := "MAJOR", issueType := "CODE_SMELL",
         message := "project issue", filePath := "", line := 0 }] 0 (by decide)
    simpa using h

/-- C10: every summary body the tool writes satisfies the tool's own
summary predicate (it contains both the marker and the heading), and
every inline comment body contains the marker, so a later run recognizes
both as machine-authored. -/
theorem tool_output_self_recognized :
    (∀ (qualityReport : QualityReport) (issues projectLevelIssues : List Issue),
      isSummaryNote
        (formatMergeRequestSummaryComment qualityReport issues projectLevelIssues) = true) ∧
    ∀ issue : Issue, commentHasMarker (formatInlineIssueComment issue) = true := by
  constructor
  · intro qualityReport issues projectLevelIssues
    unfold isSummaryNote commentHasMarker
    rw [Bool.and_eq_true]
    constructor
    · simp only [formatMergeRequestSummaryComment]
      refine strContains_trimRightNewlines ?_ (c := '>') (by decide) (by decide)
      simp only [String.data_append]
      exact infix_append_self_left _ _
    · simp only [formatMergeRequestSummaryComment]
      refine strContains_trimRightNewlines ?_ (c := '*') (by decide) (by decide)
      simp only [String.data_append]
      apply infix_append_left_extend
      apply infix_append_left_extend
      exact infix_append_self_left _ _
  · intro issue
    unfold commentHasMarker strContains
    rw [listContainsSub_eq_true_iff]
    simp only [formatInlineIssueComment, String.data_append]
    apply infix_append_right_extend
    apply infix_append_right_extend
    apply infix_append_right_extend
    apply infix_append_right_extend
    apply infix_append_right_extend
    apply infix_append_right_extend
    apply infix_append_right_extend
    apply infix_append_right_extend
    exact infix_append_self_left _ _
